import Mathlib

/-!
Verification development for the FpML semantic model library: a shallow
embedding of the schema index builder, the tag lookup, the two XML
generators, and the embedding prompt extractor, together with theorems
settling the stated behavioural properties.

Python strings are modelled by `String`; Python dicts by key-ordered
association lists; absent JSON keys by `Option`; `open`/`json.load`
outcomes by an `Except` input; the unbounded recursion of the minimal
generator by an explicit fuel argument (`none` = the call has not
returned); a raised `ValueError` from `int()` by `Except.error`.
-/

set_option maxRecDepth 100000

namespace FpML

/-! ## String helpers (kernel-reducible models of the Python string operations) -/

/-- Model of Python `str.strip()` on the character list: drop whitespace
from both ends. -/
def pyStripChars (l : List Char) : List Char :=
  ((l.dropWhile Char.isWhitespace).reverse.dropWhile Char.isWhitespace).reverse

/-- Model of Python `str.strip()`. -/
def pyStrip (s : String) : String :=
  ⟨pyStripChars s.data⟩

/-- Model of Python string repetition `s * n`. -/
def strRepeat (s : String) : Nat → String
  | 0 => ""
  | n + 1 => s ++ strRepeat s n

/-- Model of Python `sep.join(parts)`. -/
def joinSep (sep : String) : List String → String
  | [] => ""
  | [s] => s
  | s :: rest => s ++ sep ++ joinSep sep rest

/-- Boolean substring test, model of Python `p in s`. -/
def strContainsB (p s : String) : Bool :=
  s.data.tails.any (fun t => p.data.isPrefixOf t)

/-- Model of Python `s.endswith(p)`. -/
def strEndsWith (s p : String) : Bool :=
  p.data.isSuffixOf s.data

/-- `p` occurs as a contiguous substring of `s`. -/
def occursIn (p s : String) : Prop :=
  p.data <:+: s.data

instance (p s : String) : Decidable (occursIn p s) :=
  List.decidableInfix p.data s.data

/-- Digit-list to number accumulator, as in CPython's decimal parse. -/
def digitsToNat (l : List Char) : Nat :=
  l.foldl (fun n c => n * 10 + (c.toNat - 48)) 0

/-- Model of Python `int(s)` on a string: optional surrounding whitespace,
optional sign, then a non-empty run of decimal digits; anything else (for
example the literal `unbounded`) raises, modelled as `none`. -/
def pyInt? (s : String) : Option Int :=
  match pyStripChars s.data with
  | [] => none
  | '-' :: ds =>
      if ds ≠ [] ∧ ds.all Char.isDigit then some (-(digitsToNat ds : Int)) else none
  | '+' :: ds =>
      if ds ≠ [] ∧ ds.all Char.isDigit then some ((digitsToNat ds : Int)) else none
  | ds =>
      if ds.all Char.isDigit then some ((digitsToNat ds : Int)) else none

/-! ## Data model: the nested schema source mapping -/

/-- Detail record of one attribute (`{"use": "required", ...}`). -/
structure AttrDetail where
  use : Option String
deriving DecidableEq

/-- An element record as found in the schema source JSON.  Every field is
optional, mirroring `dict.get`; `children` holds nested element records. -/
inductive Element : Type where
  | mk :
      (name : Option String) →
      (type : Option String) →
      (documentation : Option String) →
      (attributes : List (String × AttrDetail)) →
      (children : List Element) →
      (minOccurs : Option String) →
      (maxOccurs : Option String) → Element

def Element.name : Element → Option String
  | .mk n _ _ _ _ _ _ => n

def Element.type : Element → Option String
  | .mk _ t _ _ _ _ _ => t

def Element.documentation : Element → Option String
  | .mk _ _ d _ _ _ _ => d

def Element.attributes : Element → List (String × AttrDetail)
  | .mk _ _ _ a _ _ _ => a

def Element.children : Element → List Element
  | .mk _ _ _ _ c _ _ => c

def Element.minOccurs : Element → Option String
  | .mk _ _ _ _ _ mn _ => mn

def Element.maxOccurs : Element → Option String
  | .mk _ _ _ _ _ _ mx => mx

/-- A complex-type record of the schema source. -/
structure ComplexType where
  name : Option String
  documentation : Option String
  children : List Element

/-- One schema file's content record. -/
structure Content where
  elements : List Element
  complexTypes : List ComplexType

/-- The whole schema source mapping, in Python dict insertion order. -/
abbrev XsdData := List (String × Content)

/-- The flattened tag descriptor built by `_extract_details`. -/
structure Descriptor where
  source_xsd : String
  data_type : String
  description : String
  attributes : List (String × AttrDetail)
  children : List Element
  minOccurs : String
  maxOccurs : String
  location_type : String

/-- The index: a Python dict from tag name to descriptor, modelled as a
key-ordered association list (keys are unique by construction). -/
abbrev Model := List (String × Descriptor)

/-- First-match association-list lookup, the model of `dict.get` /
`dict.__getitem__` on string keys. -/
def alookup {β : Type} : List (String × β) → String → Option β
  | [], _ => none
  | p :: rest, key => if p.1 = key then some p.2 else alookup rest key

/-- Python rendering of a possibly-missing string inside an f-string
(`None` prints as `"None"`). -/
def optRepr : Option String → String
  | some s => s
  | none => "None"

/-! ## Schema index builder (`FpMLBaseModel._build_model`) -/

/-- `_extract_details`: build the descriptor for one element record.
`element.get('documentation', type_doc or 'No description available')`
falls back to the enclosing type's documentation when non-empty, else to
the generic sentinel. -/
def extract_details (element : Element) (xsd_file location type_doc : String) :
    Descriptor :=
  { source_xsd := xsd_file
    data_type := element.type.getD "N/A"
    description :=
      element.documentation.getD
        (if type_doc = "" then "No description available" else type_doc)
    attributes := element.attributes
    children := element.children
    minOccurs := element.minOccurs.getD "1"
    maxOccurs := element.maxOccurs.getD "1"
    location_type := location }

/-- One step of `process_element_list`: insert the element's descriptor iff
its name is truthy (non-empty) and not already a key of the model. -/
def insertElem (xsd_file location_type type_doc : String)
    (model : Model) (e : Element) : Model :=
  match e.name with
  | some tag_name =>
      if tag_name ≠ "" ∧ (alookup model tag_name).isNone then
        model ++ [(tag_name, extract_details e xsd_file location_type type_doc)]
      else model
  | none => model

/-- `process_element_list`: fold the insert-if-absent step over an element
list, in order. -/
def process_element_list (xsd_file location_type type_doc : String)
    (model : Model) (elements : List Element) : Model :=
  elements.foldl (insertElem xsd_file location_type type_doc) model

/-- The traversal body of `_build_model`: per file, first the top-level
`elements`, then every complex type's `children`. -/
def build_model_from (xsd_data : XsdData) : Model :=
  xsd_data.foldl
    (fun model p =>
      let model := process_element_list p.1 "Top-Level Element" "" model p.2.elements
      p.2.complexTypes.foldl
        (fun model type_def =>
          process_element_list p.1
            ("Child of " ++ optRepr type_def.name)
            (type_def.documentation.getD "No description available for complex type.")
            model type_def.children)
        model)
    []

/-- `_build_model` including its `try/except` boundary: a failed
`open`/`json.load` is reported and yields the empty index. -/
def build_model (load : Except String XsdData) : Model :=
  match load with
  | .error _ => []
  | .ok xsd_data => build_model_from xsd_data

/-! ### Traversal order, for stating the collision policy -/

/-- One element occurrence in file-then-list traversal order, with the
context the builder would extract it in. -/
structure Entry where
  elem : Element
  file : String
  location : String
  typeDoc : String

/-- All element occurrences contributed by one schema file, in the order
`_build_model` visits them. -/
def fileEntries (p : String × Content) : List Entry :=
  p.2.elements.map (fun e => ⟨e, p.1, "Top-Level Element", ""⟩) ++
    p.2.complexTypes.flatMap (fun t =>
      t.children.map (fun c =>
        ⟨c, p.1, "Child of " ++ optRepr t.name,
          t.documentation.getD "No description available for complex type."⟩))

/-- All element occurrences of the whole source, in traversal order. -/
def traversal (data : XsdData) : List Entry :=
  data.flatMap fileEntries

/-- Entry-level insert step; `build_model_from` is its fold over the
traversal (proved below). -/
def insertEntry (model : Model) (en : Entry) : Model :=
  insertElem en.file en.location en.typeDoc model en.elem

/-! ## Tag lookup (`FpMLBaseModel.lookup_tag`) -/

/-- A Python value appearing in the dictionary returned by `lookup_tag`. -/
inductive PyVal : Type where
  | str : String → PyVal
  | nat : Nat → PyVal
  | attrs : List (String × AttrDetail) → PyVal
  | elems : List Element → PyVal

/-- The summary dictionary `lookup_tag` returns on a hit. -/
def hitSummary (tag_name : String) (details : Descriptor) : List (String × PyVal) :=
  [("Tag Name", .str tag_name),
   ("Source XSD", .str details.source_xsd),
   ("Data Type", .str details.data_type),
   ("Location", .str details.location_type),
   ("Description", .str details.description),
   ("Attributes", .attrs details.attributes),
   ("Children Count", .nat details.children.length),
   ("Children Sample (First 2)", .elems (details.children.take 2))]

/-- The not-found message of the packaged `lookup_tag`. -/
def notFoundMsg (tag_name : String) : String :=
  "Tag '" ++ tag_name ++ "' not found in the Base Model."

/-- `lookup_tag`: descriptor summary on a hit, a `status` dictionary on a
miss.  (A descriptor dictionary always has eight keys, so the Python
truthiness test `if details:` coincides with presence in the index.) -/
def lookup_tag (m : Model) (tag_name : String) : List (String × PyVal) :=
  match alookup m tag_name with
  | some details => hitSummary tag_name details
  | none => [("status", .str (notFoundMsg tag_name))]

/-! ## Template document generator
(`FpMLBaseModel._build_xml_recursively` / `generate_message`,
top-level module variant) -/

/-- The required-attribute mock string built by the attribute loop. -/
def attrString (attributes : List (String × AttrDetail)) : String :=
  attributes.foldl
    (fun acc p =>
      if p.2.use = some "required" then
        acc ++ " " ++ p.1 ++ "=\"VALUE_REQUIRED\""
      else acc)
    ""

/-- The post-processing of an assembled fragment: self-close / strip logic
at the end of `_build_xml_recursively`. -/
def finishFragment (tag_name indent xml_fragment : String) : String :=
  if strContainsB "PLACEHOLDER" xml_fragment ||
      strEndsWith (pyStrip xml_fragment) ("</" ++ tag_name ++ ">") then
    if strContainsB "\n" xml_fragment then xml_fragment else pyStrip xml_fragment
  else
    xml_fragment ++ "\n" ++ indent ++ "</" ++ tag_name ++ ">"

/-- Child loop of `_build_xml_recursively`: concatenate the recursive
renderings of all declared children, in order. -/
def buildXmlListAux (node : Option String → String) : List Element → String
  | [] => ""
  | c :: rest => node c.name ++ buildXmlListAux node rest

/-- Body of `_build_xml_recursively`.  The source guards the recursion with
`if depth > max_depth: return ""` and always recurses at `depth + 1`; the
remaining budget `gas = max_depth + 1 - depth` therefore decreases by one
at every call, and `gas = 0` is exactly `depth > max_depth`.  Recursion is
structural on `gas`; `depth` is kept for the indent strings. -/
def buildXmlRecAux (m : Model) : Nat → Option String → Nat → String
  | 0, _, _ => ""
  | gas + 1, tag, depth =>
    match tag with
    | none => ""
    | some tag_name =>
      match alookup m tag_name with
      | none => ""
      | some details =>
        let indent := strRepeat "  " depth
        let opening := indent ++ "<" ++ tag_name ++ attrString details.attributes ++ ">"
        let xml_fragment :=
          if details.data_type ≠ "N/A" ∧ details.children.isEmpty then
            opening ++ "PLACEHOLDER_" ++ details.data_type
          else if !details.children.isEmpty then
            opening ++ "\n" ++
              buildXmlListAux (fun nm => buildXmlRecAux m gas nm (depth + 1))
                details.children ++
              indent ++ "</" ++ tag_name ++ ">"
          else
            opening ++ "</" ++ tag_name ++ ">"
        finishFragment tag_name indent xml_fragment

/-- `_build_xml_recursively tag depth max_depth` (see `buildXmlRecAux` for
the budget encoding of the depth cutoff). -/
def buildXmlRec (m : Model) (tag : Option String) (depth max_depth : Nat) : String :=
  buildXmlRecAux m (max_depth + 1 - depth) tag depth

/-- The fixed FpML namespace of the generators. -/
def fpml_ns : String := "http://www.fpml.org/FpML-5/confirmation"

/-- `generate_message`: wrap the recursive rendering of the root (at depth
1) in the fixed `fpml:dataDocument` envelope. -/
def generate_message (m : Model) (root_tag : String) (max_depth : Nat) : String :=
  if (alookup m root_tag).isNone then
    "Error: Root tag '" ++ root_tag ++ "' not found in the Base Model."
  else
    joinSep "\n"
      ["<?xml version=\"1.0\" encoding=\"utf-8\"?>",
       "<fpml:dataDocument xmlns:fpml=\"" ++ fpml_ns ++ "\" version=\"5-12\">",
       buildXmlRec m (some root_tag) 1 max_depth,
       "</fpml:dataDocument>"]

/-- Observation of the template generator: the `(tag, depth)` pairs whose
opening construct `_build_xml_recursively` emits, under exactly the same
guards and recursion structure as `buildXmlRecAux` (same budget, same
lookups, children visited in order). -/
def emittedTagsAux (m : Model) : Nat → Option String → Nat → List (String × Nat)
  | 0, _, _ => []
  | gas + 1, tag, depth =>
    match tag with
    | none => []
    | some tag_name =>
      match alookup m tag_name with
      | none => []
      | some details =>
        (tag_name, depth) ::
          details.children.flatMap (fun c => emittedTagsAux m gas c.name (depth + 1))

/-- The `(tag, depth)` pairs opened by `_build_xml_recursively tag depth
max_depth`. -/
def emittedTags (m : Model) (tag : Option String) (depth max_depth : Nat) :
    List (String × Nat) :=
  emittedTagsAux m (max_depth + 1 - depth) tag depth

/-! ## Minimal document generator
(`FpMLBaseModel._generate_xml_snippet` / `generate_xml_message`,
packaged module) -/

/-- Final assembly of one node's snippet: wrap a non-empty recursive
content, else emit the placeholder leaf (enum-flavoured when the data type
name contains `Enum`). -/
def snippetWrap (tag_name : String) (indent : Nat) (data_type inner_content : String) :
    String :=
  let padding := strRepeat "    " indent
  if inner_content ≠ "" then
    padding ++ "<" ++ tag_name ++ ">" ++ "\n" ++ inner_content ++
      padding ++ "</" ++ tag_name ++ ">" ++ "\n"
  else
    let placeholder :=
      if strContainsB "Enum" data_type then "ENUM_VALUE_FROM_" ++ data_type
      else "'" ++ data_type ++ "_VALUE'"
    padding ++ "<" ++ tag_name ++ ">" ++ placeholder ++ "</" ++ tag_name ++ ">" ++ "\n"

/-- The child loop of `_generate_xml_snippet`: for each child, parse its
`minOccurs` (default `'0'`; an unparseable value raises, `Except.error`),
recurse only when it is ≥ 1, and concatenate the pieces.  A raise or a
non-returning recursive call (`none`, out of fuel) aborts the loop. -/
def genSnippetChildrenAux (node : Option String → Option (Except Unit String)) :
    List Element → Option (Except Unit String)
  | [] => some (Except.ok "")
  | child :: rest =>
    match pyInt? (child.minOccurs.getD "0") with
    | none => some (Except.error ())
    | some k =>
      if 1 ≤ k then
        match node child.name with
        | some (Except.ok cs) =>
          match genSnippetChildrenAux node rest with
          | some (Except.ok s) => some (Except.ok (cs ++ s))
          | other => other
        | other => other
      else genSnippetChildrenAux node rest

/-- `_generate_xml_snippet`, with fuel: the source recursion has no depth
bound, so `none` models a call that has not returned within `fuel` nested
calls (on a cyclic index the Python original recurses forever). -/
def genSnippet (m : Model) : Nat → Option String → Nat → Option (Except Unit String)
  | 0, _, _ => none
  | fuel + 1, tag, indent =>
    match tag with
    | none => some (Except.ok "")
    | some tag_name =>
      match alookup m tag_name with
      | none => some (Except.ok "")
      | some details =>
        match genSnippetChildrenAux (fun t => genSnippet m fuel t (indent + 1))
            details.children with
        | some (Except.ok inner_content) =>
            some (Except.ok (snippetWrap tag_name indent details.data_type inner_content))
        | other => other

/-- The not-applicable status message of `generate_xml_message`. -/
def notApplicableMsg (root_tag : String) : String :=
  "Root tag '" ++ root_tag ++ "' not found or is not a top-level message element."

/-- The envelope of `generate_xml_message`. -/
def fullXml (root_tag ns content : String) : String :=
  "<?xml version=\"1.0\" encoding=\"utf-8\"?>\n<" ++ root_tag ++ " xmlns=\"" ++
    ns ++ "\">\n" ++ content ++ "\n</" ++ root_tag ++ ">\n"

/-- `generate_xml_message`: not-applicable status unless the root is an
indexed top-level element, else the minimal snippet wrapped in the
root-named envelope. -/
def generate_xml_message (m : Model) (fuel : Nat) (root_tag ns : String) :
    Option (Except Unit (List (String × String))) :=
  match alookup m root_tag with
  | none => some (Except.ok [("status", notApplicableMsg root_tag)])
  | some details =>
    if details.location_type ≠ "Top-Level Element" then
      some (Except.ok [("status", notApplicableMsg root_tag)])
    else
      match genSnippet m fuel (some root_tag) 1 with
      | none => none
      | some (Except.error e) => some (Except.error e)
      | some (Except.ok snippet) =>
          some (Except.ok [("xml_snippet", fullXml root_tag ns (pyStrip snippet))])

/-! ## Embedding prompt extractor (`embedding_generator.extract_prompts`) -/

/-- Python dict assignment `d[k] = v`: update in place (keeping the key's
original position) when the key exists, else append. -/
def dictInsert {β : Type} (m : List (String × β)) (k : String) (v : β) :
    List (String × β) :=
  if (alookup m k).isSome then
    m.map (fun p => if p.1 = k then (p.1, v) else p)
  else m ++ [(k, v)]

/-- The fixed prompt template of `extract_prompts`. -/
def promptOf (filename name doc : String) : String :=
  "XSD File: " ++ filename ++ ". Element Name: " ++ name ++
    ". Function/Documentation: " ++ doc

/-- Inner loop of `extract_prompts` over one file's `elements`: an element
with truthy name and documentation contributes a keyed prompt to the map
and appends the prompt to the list; all others are skipped. -/
def extract_prompts_elems (filename : String) :
    List Element → List (String × String) × List String →
      List (String × String) × List String
  | [], acc => acc
  | e :: rest, acc =>
    let acc' :=
      match e.name, e.documentation with
      | some n, some doc =>
          if n ≠ "" ∧ doc ≠ "" then
            (dictInsert acc.1 (filename ++ "/" ++ n) (promptOf filename n doc),
             acc.2 ++ [promptOf filename n doc])
          else acc
      | _, _ => acc
    extract_prompts_elems filename rest acc'

/-- Outer loop of `extract_prompts` over the schema files. -/
def extract_prompts_files :
    XsdData → List (String × String) × List String →
      List (String × String) × List String
  | [], acc => acc
  | p :: rest, acc => extract_prompts_files rest (extract_prompts_elems p.1 p.2.elements acc)

/-- `extract_prompts`: the key-to-prompt mapping and the ordered prompt
list. -/
def extract_prompts (data : XsdData) : List (String × String) × List String :=
  extract_prompts_files data ([], [])

/-- The included `(key, prompt)` pairs contributed by one file's
`elements` (truthy name and truthy documentation only), in order. -/
def includedOfFile (filename : String) (elems : List Element) : List (String × String) :=
  elems.filterMap (fun e =>
    match e.name, e.documentation with
    | some n, some doc =>
        if n ≠ "" ∧ doc ≠ "" then some (filename ++ "/" ++ n, promptOf filename n doc)
        else none
    | _, _ => none)

/-- The included `(key, prompt)` pairs of the source, in traversal order
(top-level elements only, truthy name and documentation). -/
def includedEntries (data : XsdData) : List (String × String) :=
  data.flatMap (fun p => includedOfFile p.1 p.2.elements)

/-! ## Auxiliary notions for the theorems -/

/-- Remove the `i`-th declared child of the descriptor bound to `t`. -/
def dropChild (m : Model) (t : String) (i : Nat) : Model :=
  m.map (fun p =>
    if p.1 = t then (p.1, { p.2 with children := p.2.children.eraseIdx i }) else p)

/-- The tags the minimal generator's recursion can visit starting from
`root`: step through a required (`minOccurs ≥ 1` after parsing) child of an
indexed descriptor. -/
inductive Reach (m : Model) (root : String) : String → Prop where
  | base : Reach m root root
  | step (t : String) (d : Descriptor) (c : Element) (n : String) (k : Int) :
      Reach m root t → alookup m t = some d → c ∈ d.children →
      pyInt? (c.minOccurs.getD "0") = some k → 1 ≤ k → c.name = some n →
      Reach m root n

/-- Whether `extract_prompts` includes an element: truthy name and truthy
documentation. -/
def includedElem (e : Element) : Bool :=
  match e.name, e.documentation with
  | some n, some doc => decide (n ≠ "" ∧ doc ≠ "")
  | _, _ => false

/-- The source with every non-included element removed from every file's
`elements` list. -/
def filterIncluded (data : XsdData) : XsdData :=
  data.map (fun p =>
    (p.1, { elements := p.2.elements.filter includedElem
            complexTypes := p.2.complexTypes }))

/-! ## State-threaded (run) forms of the read operations

The Python methods execute against the mutable object field `self.data`;
these forms translate the same bodies with the field passed along and
returned at every step, so that "no read operation mutates the index" is a
statement about the returned state. -/

/-- `lookup_tag`, returning the index state it leaves behind. -/
def lookup_tag_run (st : Model) (tag_name : String) : List (String × PyVal) × Model :=
  match alookup st tag_name with
  | some details => (hitSummary tag_name details, st)
  | none => ([("status", .str (notFoundMsg tag_name))], st)

/-- Child loop of `_build_xml_recursively`, threading the index state. -/
def buildXmlListRunAux (node : Option String → Model → String × Model) :
    List Element → Model → String × Model
  | [], st => ("", st)
  | c :: rest, st =>
    let r1 := node c.name st
    let r2 := buildXmlListRunAux node rest r1.2
    (r1.1 ++ r2.1, r2.2)

/-- `_build_xml_recursively`, threading the index state (same budget
encoding as `buildXmlRecAux`). -/
def buildXmlRecRunAux : Nat → Option String → Nat → Model → String × Model
  | 0, _, _, st => ("", st)
  | gas + 1, tag, depth, st =>
    match tag with
    | none => ("", st)
    | some tag_name =>
      match alookup st tag_name with
      | none => ("", st)
      | some details =>
        let indent := strRepeat "  " depth
        let opening := indent ++ "<" ++ tag_name ++ attrString details.attributes ++ ">"
        if details.data_type ≠ "N/A" ∧ details.children.isEmpty then
          (finishFragment tag_name indent
            (opening ++ "PLACEHOLDER_" ++ details.data_type), st)
        else if !details.children.isEmpty then
          let r := buildXmlListRunAux
            (fun nm s => buildXmlRecRunAux gas nm (depth + 1) s) details.children st
          (finishFragment tag_name indent
            (opening ++ "\n" ++ r.1 ++ indent ++ "</" ++ tag_name ++ ">"), r.2)
        else
          (finishFragment tag_name indent (opening ++ "</" ++ tag_name ++ ">"), st)

/-- `generate_message`, threading the index state. -/
def generate_message_run (st : Model) (root_tag : String) (max_depth : Nat) :
    String × Model :=
  if (alookup st root_tag).isNone then
    ("Error: Root tag '" ++ root_tag ++ "' not found in the Base Model.", st)
  else
    let r := buildXmlRecRunAux (max_depth + 1 - 1) (some root_tag) 1 st
    (joinSep "\n"
      ["<?xml version=\"1.0\" encoding=\"utf-8\"?>",
       "<fpml:dataDocument xmlns:fpml=\"" ++ fpml_ns ++ "\" version=\"5-12\">",
       r.1,
       "</fpml:dataDocument>"], r.2)

/-- Child loop of `_generate_xml_snippet`, threading the index state. -/
def genSnippetChildrenRunAux
    (node : Option String → Model → Option (Except Unit String) × Model) :
    List Element → Model → Option (Except Unit String) × Model
  | [], st => (some (Except.ok ""), st)
  | child :: rest, st =>
    match pyInt? (child.minOccurs.getD "0") with
    | none => (some (Except.error ()), st)
    | some k =>
      if 1 ≤ k then
        let r1 := node child.name st
        match r1.1 with
        | some (Except.ok cs) =>
          let r2 := genSnippetChildrenRunAux node rest r1.2
          match r2.1 with
          | some (Except.ok s) => (some (Except.ok (cs ++ s)), r2.2)
          | other => (other, r2.2)
        | other => (other, r1.2)
      else genSnippetChildrenRunAux node rest st

/-- `_generate_xml_snippet`, threading the index state. -/
def genSnippetRun : Nat → Option String → Nat → Model → Option (Except Unit String) × Model
  | 0, _, _, st => (none, st)
  | fuel + 1, tag, indent, st =>
    match tag with
    | none => (some (Except.ok ""), st)
    | some tag_name =>
      match alookup st tag_name with
      | none => (some (Except.ok ""), st)
      | some details =>
        let r := genSnippetChildrenRunAux
          (fun t s => genSnippetRun fuel t (indent + 1) s) details.children st
        match r.1 with
        | some (Except.ok inner_content) =>
            (some (Except.ok (snippetWrap tag_name indent details.data_type inner_content)),
             r.2)
        | other => (other, r.2)

/-- `generate_xml_message`, threading the index state. -/
def generate_xml_message_run (st : Model) (fuel : Nat) (root_tag ns : String) :
    Option (Except Unit (List (String × String))) × Model :=
  match alookup st root_tag with
  | none => (some (Except.ok [("status", notApplicableMsg root_tag)]), st)
  | some details =>
    if details.location_type ≠ "Top-Level Element" then
      (some (Except.ok [("status", notApplicableMsg root_tag)]), st)
    else
      let r := genSnippetRun fuel (some root_tag) 1 st
      match r.1 with
      | none => (none, r.2)
      | some (Except.error e) => (some (Except.error e), r.2)
      | some (Except.ok snippet) =>
          (some (Except.ok [("xml_snippet", fullXml root_tag ns (pyStrip snippet))]), r.2)

/-! ## Concrete instances used by witnesses and counterexamples -/

/-- Leaf child declared required (`minOccurs = "1"`). -/
def elemA : Element := .mk (some "a") (some "xs:string") none [] [] (some "1") none

/-- Leaf child declared optional (`minOccurs = "0"`). -/
def elemB : Element := .mk (some "b") (some "xs:string") none [] [] (some "0") none

/-- Required child whose name is deliberately not bound in the index. -/
def elemC : Element := .mk (some "c") (some "xs:string") none [] [] (some "1") none

def dRoot : Descriptor :=
  { source_xsd := "f.xsd", data_type := "RootType", description := "root element",
    attributes := [], children := [elemA, elemB, elemC], minOccurs := "1",
    maxOccurs := "1", location_type := "Top-Level Element" }

def dA : Descriptor :=
  { source_xsd := "f.xsd", data_type := "xs:string", description := "leaf a",
    attributes := [], children := [], minOccurs := "1", maxOccurs := "1",
    location_type := "Child of RootType" }

def dB : Descriptor :=
  { source_xsd := "f.xsd", data_type := "xs:string", description := "leaf b",
    attributes := [], children := [], minOccurs := "0", maxOccurs := "1",
    location_type := "Child of RootType" }

/-- A small index: a top-level `root` with mixed-`minOccurs` children, two
bound leaves, and the required child `c` absent from the index. -/
def mMin : Model := [("root", dRoot), ("a", dA), ("b", dB)]

/-- First declaration of top-level element `x` (file 1). -/
def elemX1 : Element := .mk (some "x") (some "T1") (some "first declaration") [] [] none none

/-- Second, conflicting declaration of `x` (file 2). -/
def elemX2 : Element := .mk (some "x") (some "T2") (some "second declaration") [] [] none none

/-- Two schema files both declaring a top-level element `x` with different
data types. -/
def dataTwoFiles : XsdData :=
  [("f1.xsd", { elements := [elemX1], complexTypes := [] }),
   ("f2.xsd", { elements := [elemX2], complexTypes := [] })]

/-- The documented `trade` element of the spec's alignment example. -/
def elemTrade : Element :=
  .mk (some "trade") (some "Trade") (some "A trade record") [] [] none none

def alignData : XsdData :=
  [("fx.xsd", { elements := [elemTrade], complexTypes := [] })]

/-- Two same-named documented elements inside one file: same extractor key,
two prompts. -/
def elemXd1 : Element := .mk (some "x") none (some "d1") [] [] none none

def elemXd2 : Element := .mk (some "x") none (some "d2") [] [] none none

def dupData : XsdData :=
  [("f", { elements := [elemXd1, elemXd2], complexTypes := [] })]

/-- A child record carrying the `unbounded` marker in `minOccurs`. -/
def elemU : Element := .mk (some "a") (some "xs:string") none [] [] (some "unbounded") none

def dRootU : Descriptor :=
  { source_xsd := "f.xsd", data_type := "RootType", description := "root element",
    attributes := [], children := [elemU], minOccurs := "1", maxOccurs := "1",
    location_type := "Top-Level Element" }

/-- An index whose root has a child with unparseable `minOccurs`. -/
def mUnbounded : Model := [("root", dRootU), ("a", dA)]

/-! ## Basic lemmas -/

theorem occursIn_mid (a p b : String) : occursIn p (a ++ p ++ b) := by
  show p.data <:+: (a ++ p ++ b).data
  simp only [String.data_append]
  exact List.infix_append _ _ _

theorem occursIn_extend {p s : String} (a b : String) (h : occursIn p s) :
    occursIn p (a ++ s ++ b) := by
  show p.data <:+: (a ++ s ++ b).data
  simp only [String.data_append]
  exact h.trans (List.infix_append _ _ _)

theorem occursIn_append_left {p s : String} (t : String) (h : occursIn p s) :
    occursIn p (s ++ t) := by
  show p.data <:+: (s ++ t).data
  simp only [String.data_append]
  exact h.trans ((List.prefix_append s.data t.data).isInfix)

theorem occursIn_append_right {p s : String} (t : String) (h : occursIn p s) :
    occursIn p (t ++ s) := by
  show p.data <:+: (t ++ s).data
  simp only [String.data_append]
  exact h.trans ((List.suffix_append t.data s.data).isInfix)

theorem ne_empty_of_occursIn {p s : String} (h : occursIn p s) (hp : p ≠ "") :
    s ≠ "" := by
  intro hs
  subst hs
  have : p.data <:+: ([] : List Char) := h
  have hd : p.data = [] := List.eq_nil_of_infix_nil this
  exact hp (by cases p; simp_all)

theorem alookup_append {β : Type} (m : List (String × β)) (k key : String) (v : β) :
    alookup (m ++ [(k, v)]) key =
      match alookup m key with
      | some d => some d
      | none => if k = key then some v else none := by
  induction m with
  | nil => simp [alookup]
  | cons p rest ih =>
      by_cases h : p.1 = key <;> simp [alookup, h, ih]

theorem alookup_eq_none_iff {β : Type} (m : List (String × β)) (key : String) :
    alookup m key = none ↔ key ∉ m.map Prod.fst := by
  induction m with
  | nil => simp [alookup]
  | cons p rest ih =>
      by_cases h : p.1 = key
      · simp [alookup, h]
      · have hk : ¬ key = p.1 := fun he => h he.symm
        simp [alookup, h, hk, ih]

theorem alookup_mem {β : Type} {m : List (String × β)} {key : String} {v : β}
    (h : alookup m key = some v) : (key, v) ∈ m := by
  induction m with
  | nil => simp [alookup] at h
  | cons p rest ih =>
      obtain ⟨k1, v1⟩ := p
      by_cases hp : k1 = key
      · subst hp
        simp [alookup] at h
        subst h
        exact List.mem_cons_self _ _
      · simp [alookup, hp] at h
        exact List.mem_cons_of_mem _ (ih h)

theorem alookup_of_mem_nodup {β : Type} {m : List (String × β)} {key : String} {v : β}
    (hm : (key, v) ∈ m) (hn : (m.map Prod.fst).Nodup) : alookup m key = some v := by
  induction m with
  | nil => simp at hm
  | cons p rest ih =>
      simp only [List.map_cons, List.nodup_cons] at hn
      rcases List.mem_cons.mp hm with h | h
      · subst h
        simp [alookup]
      · have hk : p.1 ≠ key := by
          intro he
          exact hn.1 (he ▸ (List.mem_map.mpr ⟨(key, v), h, rfl⟩))
        simp [alookup, hk, ih h hn.2]

/-! ## C6: load-failure degradation -/

/-- C6: a failed load yields the empty index (size 0) and every subsequent
lookup reports the not-found status carrying the queried name. -/
theorem c6_load_failure_degradation (e tag : String) :
    build_model (Except.error e) = [] ∧
    (build_model (Except.error e)).length = 0 ∧
    lookup_tag (build_model (Except.error e)) tag =
      [("status", PyVal.str (notFoundMsg tag))] ∧
    occursIn tag (notFoundMsg tag) :=
  ⟨rfl, rfl, rfl, occursIn_mid "Tag '" tag "' not found in the Base Model."⟩

/-! ## C7: lookup totality and distinguishability -/

/-- C7: for every index and every queried string, `lookup_tag` returns
either the descriptor summary of a hit or the explicit `status` not-found
dictionary carrying the queried name, and the presence of the `status` key
distinguishes the two outcomes unambiguously. -/
theorem c7_lookup_totality (m : Model) (name : String) :
    ((∃ d, alookup m name = some d ∧
        lookup_tag m name = hitSummary name d ∧
        alookup (lookup_tag m name) "status" = none) ∨
      (alookup m name = none ∧
        lookup_tag m name = [("status", PyVal.str (notFoundMsg name))] ∧
        occursIn name (notFoundMsg name))) ∧
    ((alookup (lookup_tag m name) "status").isSome ↔ (alookup m name).isNone) := by
  cases h : alookup m name with
  | some d =>
      have hl : lookup_tag m name = hitSummary name d := by simp [lookup_tag, h]
      have hs : alookup (hitSummary name d) "status" = none := rfl
      exact ⟨Or.inl ⟨d, rfl, hl, hl ▸ hs⟩, by simp [hl, hs]⟩
  | none =>
      have hl : lookup_tag m name = [("status", PyVal.str (notFoundMsg name))] := by
        simp [lookup_tag, h]
      refine ⟨Or.inr ⟨rfl, hl, ?_⟩, by simp [hl, alookup]⟩
      exact occursIn_mid "Tag '" name "' not found in the Base Model."

/-! ## C5: minimal generator non-applicability -/

/-- C5: when the tag is absent from the index, or bound to a descriptor
whose `location_type` is not exactly `Top-Level Element`,
`generate_xml_message` returns the not-applicable status dictionary naming
the tag — never any partial document (`xml_snippet` absent). -/
theorem c5_minimal_not_applicable (m : Model) (tag : String)
    (h : alookup m tag = none ∨
      ∃ d, alookup m tag = some d ∧ d.location_type ≠ "Top-Level Element")
    (fuel : Nat) (ns : String) :
    generate_xml_message m fuel tag ns =
      some (Except.ok [("status", notApplicableMsg tag)]) ∧
    occursIn tag (notApplicableMsg tag) ∧
    alookup [("status", notApplicableMsg tag)] "xml_snippet" = none := by
  refine ⟨?_, ?_, rfl⟩
  · rcases h with h | ⟨d, hd, hloc⟩
    · simp [generate_xml_message, h]
    · simp [generate_xml_message, hd, hloc]
  · exact occursIn_mid "Root tag '" tag "' not found or is not a top-level message element."

/-- C5 witness: `a` is indexed with location `Child of RootType`, and the
call returns the not-applicable status. -/
theorem c5_minimal_not_applicable_witness :
    generate_xml_message mMin 3 "a" "NS" =
      some (Except.ok [("status", notApplicableMsg "a")]) ∧
    occursIn "a" (notApplicableMsg "a") ∧
    alookup [("status", notApplicableMsg "a")] "xml_snippet" = none :=
  c5_minimal_not_applicable mMin "a" (Or.inr ⟨dA, rfl, by decide⟩) 3 "NS"

/-! ## C1: first-writer-wins collision policy -/

theorem process_eq_foldl (f loc td : String) (m : Model) (es : List Element) :
    process_element_list f loc td m es =
      (es.map (fun e => Entry.mk e f loc td)).foldl insertEntry m := by
  rw [process_element_list, List.foldl_map]
  rfl

theorem complexTypes_foldl_eq (file : String) (cts : List ComplexType) :
    ∀ m : Model,
      cts.foldl
        (fun model type_def =>
          process_element_list file ("Child of " ++ optRepr type_def.name)
            (type_def.documentation.getD "No description available for complex type.")
            model type_def.children) m =
      (cts.flatMap (fun t =>
        t.children.map (fun c =>
          Entry.mk c file ("Child of " ++ optRepr t.name)
            (t.documentation.getD "No description available for complex type.")))).foldl
        insertEntry m := by
  induction cts with
  | nil => intro m; rfl
  | cons t rest ih =>
      intro m
      simp only [List.foldl_cons, List.flatMap_cons, List.foldl_append]
      rw [process_eq_foldl]
      exact ih _

theorem build_model_from_eq (data : XsdData) :
    build_model_from data = (traversal data).foldl insertEntry [] := by
  unfold build_model_from traversal
  generalize ([] : Model) = m
  induction data generalizing m with
  | nil => rfl
  | cons p rest ih =>
      simp only [List.foldl_cons, List.flatMap_cons, List.foldl_append]
      rw [ih]
      congr 1
      rw [fileEntries, List.foldl_append, process_eq_foldl, complexTypes_foldl_eq]

theorem foldl_insertEntry_alookup {name : String} (h : name ≠ "") :
    ∀ (l : List Entry) (m : Model),
      alookup (l.foldl insertEntry m) name =
        (match alookup m name with
          | some d => some d
          | none =>
              (l.find? (fun en => en.elem.name == some name)).map
                (fun en => extract_details en.elem en.file en.location en.typeDoc)) := by
  intro l
  induction l with
  | nil =>
      intro m
      cases hm : alookup m name
      · exact hm
      · exact hm
  | cons en rest ih =>
      intro m
      rw [List.foldl_cons, ih]
      cases hn : en.elem.name with
      | none =>
          have hins : insertEntry m en = m := by
            simp only [insertEntry, insertElem, hn]
          rw [hins, List.find?_cons_of_neg _ (by simp [hn])]
      | some t =>
          by_cases ht : t = name
          · subst ht
            rw [List.find?_cons_of_pos _ (by simp [hn])]
            cases hmm : alookup m t with
            | some d =>
                have hins : insertEntry m en = m := by
                  simp [insertEntry, insertElem, hn, hmm]
                rw [hins, hmm]
            | none =>
                have hins : insertEntry m en =
                    m ++ [(t, extract_details en.elem en.file en.location en.typeDoc)] := by
                  simp [insertEntry, insertElem, hn, hmm, h]
                rw [hins, alookup_append, hmm]
                simp
          · rw [List.find?_cons_of_neg _ (by simp [hn, ht])]
            have hsame : alookup (insertEntry m en) name = alookup m name := by
              simp only [insertEntry, insertElem, hn]
              by_cases hc : t ≠ "" ∧ (alookup m t).isNone
              · rw [if_pos hc, alookup_append]
                cases hmm : alookup m name with
                | some d => rfl
                | none => simp [ht]
              · rw [if_neg hc]
            rw [hsame]

theorem foldl_insertEntry_nodup :
    ∀ (l : List Entry) (m : Model), (m.map Prod.fst).Nodup →
      ((l.foldl insertEntry m).map Prod.fst).Nodup := by
  intro l
  induction l with
  | nil => intro m hm; exact hm
  | cons en rest ih =>
      intro m hm
      rw [List.foldl_cons]
      refine ih _ ?_
      cases hn : en.elem.name with
      | none => simpa [insertEntry, insertElem, hn] using hm
      | some t =>
          by_cases hc : t ≠ "" ∧ (alookup m t).isNone
          · have hins : insertEntry m en =
                m ++ [(t, extract_details en.elem en.file en.location en.typeDoc)] := by
              simp only [insertEntry, insertElem, hn]
              rw [if_pos hc]
            rw [hins]
            have hnotin : t ∉ m.map Prod.fst :=
              (alookup_eq_none_iff m t).mp (Option.isNone_iff_eq_none.mp hc.2)
            simp only [List.map_append]
            exact List.nodup_append.mpr ⟨hm, List.nodup_singleton t, by simpa using hnotin⟩
          · have hins : insertEntry m en = m := by
              simp only [insertEntry, insertElem, hn]
              rw [if_neg hc]
            rwa [hins]

/-- C1: for every schema source and every non-empty tag name, the built
index binds the name (exactly once — keys are unique) to the descriptor
extracted from the FIRST element record carrying that name in
file-then-list traversal order; every later same-named record contributes
nothing. -/
theorem c1_first_writer_wins (data : XsdData) (name : String) (h : name ≠ "") :
    ((build_model_from data).map Prod.fst).Nodup ∧
    alookup (build_model_from data) name =
      ((traversal data).find? (fun en => en.elem.name == some name)).map
        (fun en => extract_details en.elem en.file en.location en.typeDoc) := by
  constructor
  · rw [build_model_from_eq]
    exact foldl_insertEntry_nodup _ [] (by simp)
  · rw [build_model_from_eq]
    have := foldl_insertEntry_alookup h (traversal data) []
    simpa using this

/-- C1 witness: two files both declare top-level element `x`; the index
keeps the first file's declaration. -/
theorem c1_first_writer_wins_witness :
    ((build_model_from dataTwoFiles).map Prod.fst).Nodup ∧
    alookup (build_model_from dataTwoFiles) "x" =
      ((traversal dataTwoFiles).find? (fun en => en.elem.name == some "x")).map
        (fun en => extract_details en.elem en.file en.location en.typeDoc) :=
  c1_first_writer_wins dataTwoFiles "x" (by decide)

/-! ## C2: template generator depth bound -/

theorem buildXmlRec_cutoff (m : Model) (t : Option String) (dep md : Nat)
    (h : md < dep) : buildXmlRec m t dep md = "" := by
  rw [buildXmlRec, show md + 1 - dep = 0 by omega]
  rfl

theorem generate_message_depth0 (m : Model) (root : String)
    (h : (alookup m root).isSome = true) :
    generate_message m root 0 =
      "<?xml version=\"1.0\" encoding=\"utf-8\"?>\n<fpml:dataDocument xmlns:fpml=\"http://www.fpml.org/FpML-5/confirmation\" version=\"5-12\">\n\n</fpml:dataDocument>" := by
  obtain ⟨d, hd⟩ := Option.isSome_iff_exists.mp h
  rw [generate_message, hd]
  rw [buildXmlRec_cutoff m (some root) 1 0 (by omega)]
  simp only [Option.isNone_some, Bool.false_eq_true, if_false]
  decide

theorem emittedTagsAux_bound (m : Model) :
    ∀ (gas : Nat) (tag : Option String) (depth : Nat) (p : String × Nat),
      p ∈ emittedTagsAux m gas tag depth → depth ≤ p.2 ∧ p.2 < depth + gas := by
  intro gas
  induction gas with
  | zero =>
      intro tag depth p hp
      simp [emittedTagsAux] at hp
  | succ gas ih =>
      intro tag depth p hp
      cases tag with
      | none => simp [emittedTagsAux] at hp
      | some tag_name =>
          rw [emittedTagsAux] at hp
          cases hl : alookup m tag_name with
          | none => rw [hl] at hp; simp at hp
          | some details =>
              rw [hl] at hp
              simp only [List.mem_cons] at hp
              rcases hp with hp | hp
              · subst hp
                exact ⟨Nat.le_refl _, by show depth < depth + (gas + 1); omega⟩
              · rw [List.mem_flatMap] at hp
                obtain ⟨c, _, hpc⟩ := hp
                have := ih c.name (depth + 1) p hpc
                omega

theorem emittedTags_le (m : Model) (t : Option String) (d md : Nat)
    (p : String × Nat) (hp : p ∈ emittedTags m t d md) : d ≤ p.2 ∧ p.2 ≤ md := by
  have hb := emittedTagsAux_bound m (md + 1 - d) t d p hp
  by_cases hd : d ≤ md + 1
  · exact ⟨hb.1, by omega⟩
  · exfalso
    rw [emittedTags, show md + 1 - d = 0 by omega] at hp
    simp [emittedTagsAux] at hp

/-- C2 counterexample: `root` is present in the index `mMin`, yet
`generate_message mMin "root" 0` contains no opening construct for `root`
at all (no substring `<root`): at `max_depth = 0` the root itself is cut
off, not merely its descendants. -/
theorem c2_template_depth_counterexample :
    (alookup mMin "root").isSome = true ∧
    ¬ occursIn "<root" (generate_message mMin "root" 0) := by
  constructor
  · rfl
  · rw [generate_message_depth0 mMin "root" rfl]
    decide

/-- C2 amended: for a root present in the index, `generate_message` at
`max_depth = 0` produces only the fixed envelope (declaration, wrapper
open, empty content, wrapper close) — the root element itself is not
emitted, because the root is processed at depth 1 and every node at depth
greater than `max_depth` emits nothing; consequently every `(tag, depth)`
pair the recursion opens satisfies `depth ≤ max_depth`, so no descendant
more than `max_depth - 1` levels below the root ever appears. -/
theorem c2_template_depth_amended
    (m : Model) (root : String) (h1 : (alookup m root).isSome = true)
    (m2 : Model) (t2 : Option String) (dep md : Nat) (h2 : md < dep)
    (m3 : Model) (t3 : Option String) (d3 md3 : Nat) (p : String × Nat)
    (h3 : p ∈ emittedTags m3 t3 d3 md3) :
    generate_message m root 0 =
      "<?xml version=\"1.0\" encoding=\"utf-8\"?>\n<fpml:dataDocument xmlns:fpml=\"http://www.fpml.org/FpML-5/confirmation\" version=\"5-12\">\n\n</fpml:dataDocument>" ∧
    buildXmlRec m2 t2 dep md = "" ∧
    (d3 ≤ p.2 ∧ p.2 ≤ md3) :=
  ⟨generate_message_depth0 m root h1, buildXmlRec_cutoff m2 t2 dep md h2,
    emittedTags_le m3 t3 d3 md3 p h3⟩

/-- C2 witness: concrete instantiation on the index `mMin`. -/
theorem c2_template_depth_amended_witness :
    generate_message mMin "root" 0 =
      "<?xml version=\"1.0\" encoding=\"utf-8\"?>\n<fpml:dataDocument xmlns:fpml=\"http://www.fpml.org/FpML-5/confirmation\" version=\"5-12\">\n\n</fpml:dataDocument>" ∧
    buildXmlRec mMin (some "root") 3 2 = "" ∧
    (1 ≤ (("root", 1) : String × Nat).2 ∧ (("root", 1) : String × Nat).2 ≤ 2) :=
  c2_template_depth_amended mMin "root" (by decide) mMin (some "root") 3 2 (by omega)
    mMin (some "root") 1 2 ("root", 1) (by decide)

/-! ## C8: embedding skip rule -/

theorem extract_step_skip (f : String) (e : Element)
    (acc : List (String × String) × List String) (he : includedElem e = false) :
    (match e.name, e.documentation with
      | some n, some doc =>
          if n ≠ "" ∧ doc ≠ "" then
            (dictInsert acc.1 (f ++ "/" ++ n) (promptOf f n doc),
             acc.2 ++ [promptOf f n doc])
          else acc
      | _, _ => acc) = acc := by
  cases hn : e.name with
  | none => simp
  | some n =>
      cases hd : e.documentation with
      | none => simp
      | some doc =>
          simp only [includedElem, hn, hd] at he
          exact if_neg (of_decide_eq_false he)

theorem extract_prompts_elems_filter (f : String) :
    ∀ (elems : List Element) (acc : List (String × String) × List String),
      extract_prompts_elems f (elems.filter includedElem) acc =
        extract_prompts_elems f elems acc := by
  intro elems
  induction elems with
  | nil => intro acc; rfl
  | cons e rest ih =>
      intro acc
      by_cases he : includedElem e = true
      · rw [List.filter_cons_of_pos he]
        show extract_prompts_elems f (List.filter includedElem rest) _ =
          extract_prompts_elems f rest _
        exact ih _
      · have he' : includedElem e = false := Bool.eq_false_iff.mpr he
        rw [List.filter_cons_of_neg (by simp [he'])]
        rw [ih]
        show extract_prompts_elems f rest acc = extract_prompts_elems f rest _
        rw [extract_step_skip f e acc he']

/-- C8: an element lacking a truthy name or truthy documentation
contributes nothing: deleting all such elements from every file leaves
both the key-to-prompt map and the prompt list unchanged (and the
extractor is total — skipping is never an error). -/
theorem c8_embedding_skip_rule (data : XsdData) :
    extract_prompts (filterIncluded data) = extract_prompts data := by
  rw [extract_prompts, extract_prompts]
  suffices h : ∀ acc, extract_prompts_files (filterIncluded data) acc =
      extract_prompts_files data acc from h _
  induction data with
  | nil => intro acc; rfl
  | cons p rest ih =>
      intro acc
      show extract_prompts_files (filterIncluded rest)
          (extract_prompts_elems p.1 (p.2.elements.filter includedElem) acc) =
        extract_prompts_files rest (extract_prompts_elems p.1 p.2.elements acc)
      rw [extract_prompts_elems_filter]
      exact ih _

/-! ## C10: conditional totality of the minOccurs parse -/

theorem genSnippet_none_not_error (m : Model) (fuel ind : Nat) :
    genSnippet m fuel none ind = none ∨
    genSnippet m fuel none ind = some (Except.ok "") := by
  cases fuel <;> simp [genSnippet]

theorem genSnippet_no_error (m : Model) (root : String)
    (hp : ∀ t, Reach m root t → ∀ d, alookup m t = some d →
      ∀ c ∈ d.children, (pyInt? (c.minOccurs.getD "0")).isSome = true) :
    ∀ (fuel : Nat) (t : String) (ind : Nat), Reach m root t →
      genSnippet m fuel (some t) ind ≠ some (Except.error ()) := by
  intro fuel
  induction fuel with
  | zero =>
      intro t ind _ h
      simp [genSnippet] at h
  | succ fuel ih =>
      intro t ind hr h
      rw [genSnippet] at h
      cases hl : alookup m t with
      | none => simp only [hl] at h; exact absurd h (by simp)
      | some details =>
          simp only [hl] at h
          have hch : ∀ (ch : List Element), (∀ c ∈ ch, c ∈ details.children) →
              genSnippetChildrenAux (fun tg => genSnippet m fuel tg (ind + 1)) ch ≠
                some (Except.error ()) := by
            intro ch
            induction ch with
            | nil =>
                intro _ hc
                simp [genSnippetChildrenAux] at hc
            | cons c rest ihc =>
                intro hsub hc
                rw [genSnippetChildrenAux] at hc
                have hpc := hp t hr details hl c (hsub c (List.mem_cons_self _ _))
                cases hpi : pyInt? (c.minOccurs.getD "0") with
                | none => simp [hpi] at hpc
                | some k =>
                    simp only [hpi] at hc
                    by_cases hk : 1 ≤ k
                    · rw [if_pos hk] at hc
                      cases hnode : genSnippet m fuel c.name (ind + 1) with
                      | none => simp only [hnode] at hc; exact absurd hc (by simp)
                      | some rv =>
                          cases rv with
                          | error e =>
                              cases e
                              cases hcn : c.name with
                              | none =>
                                  rw [hcn] at hnode
                                  rcases genSnippet_none_not_error m fuel (ind + 1) with
                                    hz | hz <;> rw [hz] at hnode <;> simp at hnode
                              | some n =>
                                  rw [hcn] at hnode
                                  exact ih n (ind + 1)
                                    (Reach.step t details c n k hr hl
                                      (hsub c (List.mem_cons_self _ _)) hpi hk hcn)
                                    hnode
                          | ok cs =>
                              simp only [hnode] at hc
                              cases hrest : genSnippetChildrenAux
                                  (fun tg => genSnippet m fuel tg (ind + 1)) rest with
                              | none => simp only [hrest] at hc; exact absurd hc (by simp)
                              | some rr =>
                                  cases rr with
                                  | error e2 =>
                                      cases e2
                                      exact ihc (fun x hx => hsub x (List.mem_cons_of_mem _ hx))
                                        hrest
                                  | ok s =>
                                      simp only [hrest] at hc
                                      exact absurd hc (by simp)
                    · rw [if_neg hk] at hc
                      exact ihc (fun x hx => hsub x (List.mem_cons_of_mem _ hx)) hc
          cases hsnip : genSnippetChildrenAux
              (fun tg => genSnippet m fuel tg (ind + 1)) details.children with
          | none => simp only [hsnip] at h; exact absurd h (by simp)
          | some rv =>
              cases rv with
              | error e =>
                  cases e
                  exact hch details.children (fun c hc => hc) hsnip
              | ok inner => simp only [hsnip] at h; exact absurd h (by simp)

theorem reach_parse_of_all (m : Model) (root : String)
    (h : ∀ p ∈ m, ∀ c ∈ p.2.children, (pyInt? (c.minOccurs.getD "0")).isSome = true) :
    ∀ t, Reach m root t → ∀ d, alookup m t = some d →
      ∀ c ∈ d.children, (pyInt? (c.minOccurs.getD "0")).isSome = true :=
  fun t _ d hd c hc => h (t, d) (alookup_mem hd) c hc

/-- C10: when every `minOccurs` string in the children records of the
descriptors reachable from the root parses as a decimal integer (absent
values default to `'0'`), `generate_xml_message` never raises; and the
`int()` conversion in the required-child filter is exactly the raising
point: on an index whose root carries an `unbounded` child marker the call
raises (`Except.error`). -/
theorem c10_minOccurs_conditional_totality (m : Model) (root : String)
    (hp : ∀ t, Reach m root t → ∀ d, alookup m t = some d →
      ∀ c ∈ d.children, (pyInt? (c.minOccurs.getD "0")).isSome = true)
    (fuel : Nat) (ns : String) :
    generate_xml_message m fuel root ns ≠ some (Except.error ()) ∧
    generate_xml_message mUnbounded 7 "root" fpml_ns = some (Except.error ()) := by
  constructor
  · intro h
    rw [generate_xml_message] at h
    cases hl : alookup m root with
    | none => simp only [hl] at h; exact absurd h (by simp)
    | some details =>
        simp only [hl] at h
        by_cases hloc : details.location_type ≠ "Top-Level Element"
        · rw [if_pos hloc] at h; exact absurd h (by simp)
        · rw [if_neg hloc] at h
          cases hs : genSnippet m fuel (some root) 1 with
          | none => simp only [hs] at h; exact absurd h (by simp)
          | some rv =>
              cases rv with
              | error e =>
                  cases e
                  exact genSnippet_no_error m root hp fuel root 1 Reach.base hs
              | ok s => simp only [hs] at h; exact absurd h (by simp)
  · rfl

/-- C10 witness: on the well-parsed index `mMin` the generator does not
raise; every `minOccurs` in the index parses. -/
theorem c10_minOccurs_conditional_totality_witness :
    generate_xml_message mMin 7 "root" fpml_ns ≠ some (Except.error ()) ∧
    generate_xml_message mUnbounded 7 "root" fpml_ns = some (Except.error ()) :=
  c10_minOccurs_conditional_totality mMin "root"
    (reach_parse_of_all mMin "root" (by decide)) 7 fpml_ns

/-! ## C3: minimal generator required-only filter -/

theorem angle_ne_empty (n : String) : ("<" ++ n ++ ">") ≠ "" := by
  intro h
  have hd : ("<" ++ n ++ ">").data = ("" : String).data := by rw [h]
  rw [String.data_append, String.data_append,
    show ("<" : String).data = ['<'] from rfl,
    show ("" : String).data = [] from rfl] at hd
  simp at hd

/-- A snippet of a tag bound in the index always starts with the padded
opening construct of that tag. -/
theorem genSnippet_found_shape (m : Model) {fuel : Nat} {n : String} {ind : Nat}
    {dc : Descriptor} (hdc : alookup m n = some dc) {cs : String}
    (h : genSnippet m fuel (some n) ind = some (Except.ok cs)) :
    ∃ rest, cs = strRepeat "    " ind ++ ("<" ++ n ++ ">") ++ rest := by
  cases fuel with
  | zero => simp [genSnippet] at h
  | succ fuel =>
      rw [genSnippet] at h
      simp only [hdc] at h
      cases hsnip : genSnippetChildrenAux (fun t => genSnippet m fuel t (ind + 1))
          dc.children with
      | none => simp only [hsnip] at h; exact absurd h (by simp)
      | some rv =>
          cases rv with
          | error e => simp only [hsnip] at h; exact absurd h (by simp)
          | ok inner =>
              simp only [hsnip, Option.some.injEq, Except.ok.injEq] at h
              rw [← h, snippetWrap]
              by_cases hin : inner ≠ ""
              · rw [if_pos hin]
                refine ⟨"\n" ++ inner ++ strRepeat "    " ind ++ "</" ++ n ++ ">" ++ "\n", ?_⟩
                simp only [String.append_assoc]
              · rw [if_neg hin]
                refine ⟨(if strContainsB "Enum" dc.data_type then
                    "ENUM_VALUE_FROM_" ++ dc.data_type
                  else "'" ++ dc.data_type ++ "_VALUE'") ++ "</" ++ n ++ ">" ++ "\n", ?_⟩
                simp only [String.append_assoc]

/-- If the child loop returns a string, every required child's rendering is
a substring of it. -/
theorem genSnippetChildren_contains
    (node : Option String → Option (Except Unit String)) :
    ∀ (ch : List Element) (inner : String),
      genSnippetChildrenAux node ch = some (Except.ok inner) →
      ∀ c ∈ ch, ∀ (k : Int), pyInt? (c.minOccurs.getD "0") = some k → 1 ≤ k →
      ∃ cs, node c.name = some (Except.ok cs) ∧
        ∀ p : String, occursIn p cs → occursIn p inner := by
  intro ch
  induction ch with
  | nil =>
      intro inner _ c hc
      simp at hc
  | cons c0 rest ih =>
      intro inner hin c hc k hk hk1
      rw [genSnippetChildrenAux] at hin
      rcases List.mem_cons.mp hc with hceq | hcr
      · subst hceq
        simp only [hk] at hin
        rw [if_pos hk1] at hin
        cases hnode : node c.name with
        | none => simp only [hnode] at hin; exact absurd hin (by simp)
        | some rv =>
            cases rv with
            | error e => simp only [hnode] at hin; exact absurd hin (by simp)
            | ok cs =>
                simp only [hnode] at hin
                cases hrest : genSnippetChildrenAux node rest with
                | none => simp only [hrest] at hin; exact absurd hin (by simp)
                | some rr =>
                    cases rr with
                    | error e2 => simp only [hrest] at hin; exact absurd hin (by simp)
                    | ok s =>
                        simp only [hrest, Option.some.injEq, Except.ok.injEq] at hin
                        refine ⟨cs, rfl, fun p hp => ?_⟩
                        rw [← hin]
                        exact occursIn_append_left s hp
      · cases hk0 : pyInt? (c0.minOccurs.getD "0") with
        | none => simp only [hk0] at hin; exact absurd hin (by simp)
        | some kk =>
            simp only [hk0] at hin
            by_cases hkk : 1 ≤ kk
            · rw [if_pos hkk] at hin
              cases hnode : node c0.name with
              | none => simp only [hnode] at hin; exact absurd hin (by simp)
              | some rv =>
                  cases rv with
                  | error e => simp only [hnode] at hin; exact absurd hin (by simp)
                  | ok cs0 =>
                      simp only [hnode] at hin
                      cases hrest : genSnippetChildrenAux node rest with
                      | none => simp only [hrest] at hin; exact absurd hin (by simp)
                      | some rr =>
                          cases rr with
                          | error e2 =>
                              simp only [hrest] at hin
                              exact absurd hin (by simp)
                          | ok s0 =>
                              simp only [hrest, Option.some.injEq, Except.ok.injEq] at hin
                              obtain ⟨cs, hn, himp⟩ := ih s0 hrest c hcr k hk hk1
                              refine ⟨cs, hn, fun p hp => ?_⟩
                              rw [← hin]
                              exact occursIn_append_right cs0 (himp p hp)
            · rw [if_neg hkk] at hin
              exact ih inner hin c hcr k hk hk1

/-- C3 positive direction: a required child whose name is bound in the
index has its opening construct in the parent's snippet. -/
theorem genSnippet_required_occurs (m : Model) {fuel : Nat} {t : String} {ind : Nat}
    {s : String} (hs : genSnippet m fuel (some t) ind = some (Except.ok s))
    {d : Descriptor} (hd : alookup m t = some d)
    {c : Element} (hc : c ∈ d.children) {k : Int}
    (hk : pyInt? (c.minOccurs.getD "0") = some k) (hk1 : 1 ≤ k)
    {n : String} (hn : c.name = some n) {dc : Descriptor}
    (hdc : alookup m n = some dc) :
    occursIn ("<" ++ n ++ ">") s := by
  cases fuel with
  | zero => simp [genSnippet] at hs
  | succ fuel =>
      rw [genSnippet] at hs
      simp only [hd] at hs
      cases hsnip : genSnippetChildrenAux (fun tg => genSnippet m fuel tg (ind + 1))
          d.children with
      | none => simp only [hsnip] at hs; exact absurd hs (by simp)
      | some rv =>
          cases rv with
          | error e => simp only [hsnip] at hs; exact absurd hs (by simp)
          | ok inner =>
              simp only [hsnip, Option.some.injEq, Except.ok.injEq] at hs
              obtain ⟨cs, hnode, himp⟩ :=
                genSnippetChildren_contains _ d.children inner hsnip c hc k hk hk1
              rw [hn] at hnode
              obtain ⟨rest, hcs⟩ := genSnippet_found_shape m hdc hnode
              have h1 : occursIn ("<" ++ n ++ ">") cs := by
                rw [hcs]
                exact occursIn_mid _ _ _
              have h2 : occursIn ("<" ++ n ++ ">") inner := himp _ h1
              have hne : inner ≠ "" := ne_empty_of_occursIn h2 (angle_ne_empty n)
              have hsplit : snippetWrap t ind d.data_type inner =
                  (strRepeat "    " ind ++ "<" ++ t ++ ">" ++ "\n") ++ inner ++
                    (strRepeat "    " ind ++ "</" ++ t ++ ">" ++ "\n") := by
                rw [snippetWrap, if_pos hne]
                simp [String.append_assoc]
              rw [← hs, hsplit]
              exact occursIn_extend _ _ h2

/-- A filtered-out child (parsed `minOccurs < 1`) can be deleted from the
loop without changing the loop's result. -/
theorem genSnippetChildren_skip (node : Option String → Option (Except Unit String))
    (c : Element) (k0 : Int) (hk : pyInt? (c.minOccurs.getD "0") = some k0)
    (hlt : k0 < 1) :
    ∀ (a b : List Element),
      genSnippetChildrenAux node (a ++ c :: b) = genSnippetChildrenAux node (a ++ b) := by
  intro a
  induction a with
  | nil =>
      intro b
      show genSnippetChildrenAux node (c :: b) = _
      rw [genSnippetChildrenAux]
      simp only [hk]
      rw [if_neg (by omega)]
      rfl
  | cons x rest ih =>
      intro b
      show genSnippetChildrenAux node (x :: (rest ++ c :: b)) =
        genSnippetChildrenAux node (x :: (rest ++ b))
      simp only [genSnippetChildrenAux]
      simp only [ih b]

theorem alookup_dropChild (m : Model) (t : String) (i : Nat) (x : String) :
    alookup (dropChild m t i) x =
      if x = t then
        (alookup m t).map (fun d => { d with children := d.children.eraseIdx i })
      else alookup m x := by
  induction m with
  | nil => by_cases hx : x = t <;> simp [dropChild, alookup, hx]
  | cons p rest ih =>
      by_cases hpt : p.1 = t
      · by_cases hpx : p.1 = x
        · have hxt : x = t := by rw [← hpx, hpt]
          simp [dropChild, alookup, hpt, hpx, hxt]
        · have hxt : ¬ x = t := fun he => hpx (by rw [hpt, ← he])
          have htx : ¬ t = x := fun he => hxt he.symm
          simp only [dropChild] at ih ⊢
          simp [alookup, hpt, hpx, ih, hxt, htx]
      · by_cases hpx : p.1 = x
        · have hxt : ¬ x = t := fun he => hpt (by rw [hpx, he])
          simp [dropChild, alookup, hpt, hpx, hxt]
        · simp only [dropChild] at ih ⊢
          simp [alookup, hpt, hpx, ih]

/-- C3 negative direction: deleting a filtered-out child of any indexed
descriptor changes no output of the minimal generator. -/
theorem genSnippet_dropChild (m : Model) (t : String) (i : Nat)
    (d : Descriptor) (hm : alookup m t = some d)
    (c0 : Element) (hi : d.children[i]? = some c0)
    (k0 : Int) (hk0 : pyInt? (c0.minOccurs.getD "0") = some k0) (hlt : k0 < 1) :
    ∀ (fuel : Nat) (tag : Option String) (ind : Nat),
      genSnippet (dropChild m t i) fuel tag ind = genSnippet m fuel tag ind := by
  have hlen : i < d.children.length := by
    rcases List.getElem?_eq_some_iff.mp hi with ⟨hl, _⟩
    exact hl
  have hget : d.children[i] = c0 := by
    rcases List.getElem?_eq_some_iff.mp hi with ⟨hl, hv⟩
    exact hv
  have hd : d.children = d.children.take i ++ c0 :: d.children.drop (i + 1) := by
    conv_lhs => rw [← List.take_append_drop i d.children]
    rw [List.drop_eq_getElem_cons hlen, hget]
  have herase : d.children.eraseIdx i =
      d.children.take i ++ d.children.drop (i + 1) :=
    List.eraseIdx_eq_take_drop_succ _ _
  intro fuel
  induction fuel with
  | zero => intro tag ind; rfl
  | succ fuel ih =>
      intro tag ind
      have hnode : (fun tg => genSnippet (dropChild m t i) fuel tg (ind + 1)) =
          (fun tg => genSnippet m fuel tg (ind + 1)) := funext fun tg => ih tg (ind + 1)
      cases tag with
      | none => rfl
      | some x =>
          simp only [genSnippet]
          by_cases hxt : x = t
          · subst hxt
            rw [alookup_dropChild, if_pos rfl, hm]
            simp only [Option.map_some', hm]
            rw [herase, ← genSnippetChildren_skip
                (fun tg => genSnippet (dropChild m x i) fuel tg (ind + 1)) c0 k0 hk0 hlt
                (d.children.take i) (d.children.drop (i + 1)), ← hd]
            simp only [hnode]
          · rw [alookup_dropChild, if_neg hxt]
            simp only [hnode]

/-- C3 counterexample: in `mMin` the root's children have mixed
`minOccurs` (`a`: "1", `b`: "0", `c`: "1"), yet the minimal document does
NOT contain the required child `c`: its name is unbound in the index and
it is silently dropped, so the output does not contain exactly the
`minOccurs ≥ 1` children. -/
theorem c3_required_only_counterexample :
    pyInt? (elemC.minOccurs.getD "0") = some 1 ∧ elemC.name = some "c" ∧
    elemC ∈ dRoot.children ∧
    pyInt? (elemB.minOccurs.getD "0") = some 0 ∧ elemB ∈ dRoot.children ∧
    generate_xml_message mMin 7 "root" fpml_ns = some (Except.ok
      [("xml_snippet", "<?xml version=\"1.0\" encoding=\"utf-8\"?>\n<root xmlns=\"http://www.fpml.org/FpML-5/confirmation\">\n<root>\n        <a>'xs:string_VALUE'</a>\n    </root>\n</root>\n")]) ∧
    ¬ occursIn "<c>"
      "<?xml version=\"1.0\" encoding=\"utf-8\"?>\n<root xmlns=\"http://www.fpml.org/FpML-5/confirmation\">\n<root>\n        <a>'xs:string_VALUE'</a>\n    </root>\n</root>\n" :=
  ⟨rfl, rfl, List.Mem.tail _ (List.Mem.tail _ (List.Mem.head _)), rfl,
    List.Mem.tail _ (List.Mem.head _), rfl, by decide⟩

/-- C3 amended: when the minimal generator returns a document for an
indexed tag, it contains the opening construct of every required child
(parsed `minOccurs ≥ 1`, default `'0'`) whose name is bound in the index —
a required child with an unbound name contributes nothing — and every
child with parsed `minOccurs < 1` can be deleted from the descriptor
without changing any output of the generator at any level. -/
theorem c3_required_only_amended
    (m : Model) (t : String) (d : Descriptor) (hm : alookup m t = some d)
    (fuel ind : Nat) (s : String)
    (hs : genSnippet m fuel (some t) ind = some (Except.ok s))
    (c : Element) (hc : c ∈ d.children) (k : Int)
    (hk : pyInt? (c.minOccurs.getD "0") = some k) (hk1 : 1 ≤ k)
    (n : String) (hn : c.name = some n) (dc : Descriptor) (hdc : alookup m n = some dc)
    (i : Nat) (c0 : Element) (hi : d.children[i]? = some c0) (k0 : Int)
    (hk0 : pyInt? (c0.minOccurs.getD "0") = some k0) (hlt : k0 < 1)
    (fuel2 : Nat) (tag2 : Option String) (ind2 : Nat) :
    occursIn ("<" ++ n ++ ">") s ∧
    genSnippet (dropChild m t i) fuel2 tag2 ind2 = genSnippet m fuel2 tag2 ind2 :=
  ⟨genSnippet_required_occurs m hs hm hc hk hk1 hn hdc,
   genSnippet_dropChild m t i d hm c0 hi k0 hk0 hlt fuel2 tag2 ind2⟩

/-- C3 witness: concrete instantiation on `mMin`. -/
theorem c3_required_only_amended_witness :
    occursIn ("<" ++ "a" ++ ">") "    <root>\n        <a>'xs:string_VALUE'</a>\n    </root>\n" ∧
    genSnippet (dropChild mMin "root" 1) 4 (some "root") 1 =
      genSnippet mMin 4 (some "root") 1 :=
  c3_required_only_amended mMin "root" dRoot rfl 5 1
    "    <root>\n        <a>'xs:string_VALUE'</a>\n    </root>\n" rfl
    elemA (List.Mem.head _) 1 rfl (by decide) "a" rfl dA rfl
    1 elemB rfl 0 rfl (by decide) 4 (some "root") 1

/-! ## C4: embedding key/prompt alignment -/

theorem occursIn_refl (p : String) : occursIn p p :=
  List.infix_refl _

theorem dictInsert_fresh {β : Type} (m : List (String × β)) (k : String) (v : β)
    (h : alookup m k = none) : dictInsert m k v = m ++ [(k, v)] := by
  rw [dictInsert, h]
  rfl

theorem extract_prompts_elems_spec (f : String) :
    ∀ (elems : List Element) (m : List (String × String)) (ps : List String),
      (m.map Prod.fst ++ (includedOfFile f elems).map Prod.fst).Nodup →
      extract_prompts_elems f elems (m, ps) =
        (m ++ includedOfFile f elems, ps ++ (includedOfFile f elems).map Prod.snd) := by
  intro elems
  induction elems with
  | nil =>
      intro m ps _
      simp [includedOfFile, extract_prompts_elems]
  | cons e rest ih =>
      intro m ps hnd
      cases hn : e.name with
      | none =>
          have hio : includedOfFile f (e :: rest) = includedOfFile f rest := by
            simp [includedOfFile, hn]
          rw [hio] at hnd
          simp only [extract_prompts_elems, hn]
          rw [hio]
          exact ih m ps hnd
      | some n =>
          cases hdoc : e.documentation with
          | none =>
              have hio : includedOfFile f (e :: rest) = includedOfFile f rest := by
                simp [includedOfFile, hn, hdoc]
              rw [hio] at hnd
              simp only [extract_prompts_elems, hn, hdoc]
              rw [hio]
              exact ih m ps hnd
          | some doc =>
              by_cases hcond : n ≠ "" ∧ doc ≠ ""
              · have hio : includedOfFile f (e :: rest) =
                    (f ++ "/" ++ n, promptOf f n doc) :: includedOfFile f rest := by
                  simp [includedOfFile, hn, hdoc, hcond]
                rw [hio] at hnd
                have hnd' : (m.map Prod.fst ++
                    ((f ++ "/" ++ n) :: (includedOfFile f rest).map Prod.fst)).Nodup := by
                  simpa using hnd
                obtain ⟨-, -, hdisj⟩ := List.nodup_append.mp hnd'
                have hfresh : alookup m (f ++ "/" ++ n) = none := by
                  rw [alookup_eq_none_iff]
                  intro hmem
                  exact hdisj hmem (List.mem_cons_self _ _)
                simp only [extract_prompts_elems, hn, hdoc]
                rw [if_pos hcond, dictInsert_fresh _ _ _ hfresh, hio]
                rw [ih (m ++ [(f ++ "/" ++ n, promptOf f n doc)])
                    (ps ++ [promptOf f n doc])
                    (by simpa [List.append_assoc] using hnd')]
                simp [List.append_assoc]
              · have hio : includedOfFile f (e :: rest) = includedOfFile f rest := by
                  simp [includedOfFile, hn, hdoc, hcond]
                rw [hio] at hnd
                simp only [extract_prompts_elems, hn, hdoc]
                rw [if_neg hcond, hio]
                exact ih m ps hnd

theorem extract_prompts_files_spec :
    ∀ (data : XsdData) (m : List (String × String)) (ps : List String),
      (m.map Prod.fst ++ (includedEntries data).map Prod.fst).Nodup →
      extract_prompts_files data (m, ps) =
        (m ++ includedEntries data, ps ++ (includedEntries data).map Prod.snd) := by
  intro data
  induction data with
  | nil =>
      intro m ps _
      simp [includedEntries, extract_prompts_files]
  | cons p rest ih =>
      intro m ps hnd
      have hie : includedEntries (p :: rest) =
          includedOfFile p.1 p.2.elements ++ includedEntries rest := by
        simp [includedEntries]
      rw [hie] at hnd
      have hnd2 : (m.map Prod.fst ++ ((includedOfFile p.1 p.2.elements).map Prod.fst ++
          (includedEntries rest).map Prod.fst)).Nodup := by
        simpa [List.map_append, List.append_assoc] using hnd
      have h1 : (m.map Prod.fst ++ (includedOfFile p.1 p.2.elements).map Prod.fst).Nodup := by
        refine List.Nodup.sublist ?_ hnd2
        rw [← List.append_assoc]
        exact List.sublist_append_left _ _
      show extract_prompts_files rest (extract_prompts_elems p.1 p.2.elements (m, ps)) = _
      rw [extract_prompts_elems_spec p.1 p.2.elements m ps h1]
      rw [ih (m ++ includedOfFile p.1 p.2.elements)
          (ps ++ (includedOfFile p.1 p.2.elements).map Prod.snd)
          (by simpa [List.map_append, List.append_assoc] using hnd2)]
      rw [hie]
      simp [List.map_append, List.append_assoc]

theorem extract_prompts_spec (data : XsdData)
    (hnd : ((includedEntries data).map Prod.fst).Nodup) :
    extract_prompts data = (includedEntries data, (includedEntries data).map Prod.snd) := by
  rw [extract_prompts, extract_prompts_files_spec data [] [] (by simpa using hnd)]
  simp

/-- C4 counterexample: two same-named documented elements inside one file
yield ONE key (at position 0 of the key list) mapped to the SECOND prompt,
which sits at position 1 of the prompt list — the key's position does not
match its prompt's position (and the map and list sizes differ). -/
theorem c4_key_prompt_alignment_counterexample :
    (extract_prompts dupData).1.map Prod.fst = ["f/x"] ∧
    alookup (extract_prompts dupData).1 "f/x" =
      some "XSD File: f. Element Name: x. Function/Documentation: d2" ∧
    (extract_prompts dupData).2 =
      ["XSD File: f. Element Name: x. Function/Documentation: d1",
       "XSD File: f. Element Name: x. Function/Documentation: d2"] ∧
    (extract_prompts dupData).2[0]? =
      some "XSD File: f. Element Name: x. Function/Documentation: d1" ∧
    (extract_prompts dupData).2[1]? =
      some "XSD File: f. Element Name: x. Function/Documentation: d2" ∧
    ("XSD File: f. Element Name: x. Function/Documentation: d1" : String) ≠
      "XSD File: f. Element Name: x. Function/Documentation: d2" :=
  ⟨rfl, rfl, rfl, rfl, rfl, by decide⟩

/-- C4 amended: provided no two included elements share a key (the
`{file}/{name}` pairs are distinct — true of well-formed schema sources),
the extractor's map in iteration order is exactly the included entries,
the prompt list is its value column (so the i-th key maps to the i-th
prompt), and every included element's key maps to a prompt carrying the
file identifier, the element name, and the documentation verbatim.  With
duplicate keys the map keeps one entry while the list keeps every prompt,
and the alignment breaks (see the counterexample). -/
theorem c4_key_prompt_alignment_amended (data : XsdData)
    (hnd : ((includedEntries data).map Prod.fst).Nodup)
    (filename : String) (content : Content) (e : Element) (n doc : String)
    (hmem : (filename, content) ∈ data) (he : e ∈ content.elements)
    (hn : e.name = some n) (hdoc : e.documentation = some doc)
    (hne : n ≠ "") (hde : doc ≠ "") :
    (extract_prompts data).1 = includedEntries data ∧
    (extract_prompts data).2 = (includedEntries data).map Prod.snd ∧
    (extract_prompts data).1.map Prod.snd = (extract_prompts data).2 ∧
    alookup (extract_prompts data).1 (filename ++ "/" ++ n) =
      some (promptOf filename n doc) ∧
    occursIn filename (promptOf filename n doc) ∧
    occursIn n (promptOf filename n doc) ∧
    occursIn doc (promptOf filename n doc) := by
  have hspec := extract_prompts_spec data hnd
  have hkey : (filename ++ "/" ++ n, promptOf filename n doc) ∈ includedEntries data := by
    rw [includedEntries, List.mem_flatMap]
    refine ⟨(filename, content), hmem, ?_⟩
    rw [includedOfFile, List.mem_filterMap]
    exact ⟨e, he, by simp [hn, hdoc, hne, hde]⟩
  refine ⟨by rw [hspec], by rw [hspec], by rw [hspec], ?_, ?_, ?_, ?_⟩
  · rw [hspec]
    exact alookup_of_mem_nodup hkey hnd
  · show occursIn filename
      ("XSD File: " ++ filename ++ ". Element Name: " ++ n ++
        ". Function/Documentation: " ++ doc)
    exact occursIn_append_left _ (occursIn_append_left _ (occursIn_append_left _
      (occursIn_append_left _ (occursIn_append_right _ (occursIn_refl filename)))))
  · show occursIn n
      ("XSD File: " ++ filename ++ ". Element Name: " ++ n ++
        ". Function/Documentation: " ++ doc)
    exact occursIn_append_left _ (occursIn_append_left _
      (occursIn_append_right _ (occursIn_refl n)))
  · show occursIn doc
      ("XSD File: " ++ filename ++ ". Element Name: " ++ n ++
        ". Function/Documentation: " ++ doc)
    exact occursIn_append_right _ (occursIn_refl doc)

/-- C4 witness: the spec's own example — file `fx.xsd`, element `trade`,
documentation `A trade record`. -/
theorem c4_key_prompt_alignment_amended_witness :
    (extract_prompts alignData).1 = includedEntries alignData ∧
    (extract_prompts alignData).2 = (includedEntries alignData).map Prod.snd ∧
    (extract_prompts alignData).1.map Prod.snd = (extract_prompts alignData).2 ∧
    alookup (extract_prompts alignData).1 ("fx.xsd" ++ "/" ++ "trade") =
      some (promptOf "fx.xsd" "trade" "A trade record") ∧
    occursIn "fx.xsd" (promptOf "fx.xsd" "trade" "A trade record") ∧
    occursIn "trade" (promptOf "fx.xsd" "trade" "A trade record") ∧
    occursIn "A trade record" (promptOf "fx.xsd" "trade" "A trade record") :=
  c4_key_prompt_alignment_amended alignData (by decide) "fx.xsd"
    { elements := [elemTrade], complexTypes := [] } elemTrade "trade" "A trade record"
    (List.Mem.head _) (List.Mem.head _) rfl rfl (by decide) (by decide)

/-! ## C9: index immutability under reads -/

theorem lookup_tag_run_spec (st : Model) (tag_name : String) :
    lookup_tag_run st tag_name = (lookup_tag st tag_name, st) := by
  rw [lookup_tag_run, lookup_tag]
  cases alookup st tag_name <;> rfl

theorem buildXmlListRunAux_state (node : Option String → Model → String × Model)
    (st : Model) (hnode : ∀ tg, (node tg st).2 = st) :
    ∀ ch, buildXmlListRunAux node ch st =
      (buildXmlListAux (fun tg => (node tg st).1) ch, st) := by
  intro ch
  induction ch with
  | nil => rfl
  | cons c rest ih =>
      show (let r1 := node c.name st
            let r2 := buildXmlListRunAux node rest r1.2
            ((r1.1 ++ r2.1 : String), r2.2)) = _
      simp only [hnode c.name, ih]
      rfl

theorem buildXmlRecRunAux_spec :
    ∀ (gas : Nat) (tag : Option String) (depth : Nat) (st : Model),
      buildXmlRecRunAux gas tag depth st = (buildXmlRecAux st gas tag depth, st) := by
  intro gas
  induction gas with
  | zero => intro tag depth st; rfl
  | succ gas ih =>
      intro tag depth st
      cases tag with
      | none => rfl
      | some tag_name =>
          rw [buildXmlRecRunAux, buildXmlRecAux]
          cases hl : alookup st tag_name with
          | none => rfl
          | some details =>
              simp only
              by_cases h1 : details.data_type ≠ "N/A" ∧ details.children.isEmpty
              · rw [if_pos h1, if_pos h1]
              · rw [if_neg h1, if_neg h1]
                by_cases h2 : (!details.children.isEmpty) = true
                · rw [if_pos h2, if_pos h2]
                  rw [buildXmlListRunAux_state
                      (fun nm s => buildXmlRecRunAux gas nm (depth + 1) s) st
                      (fun tg => by
                        show (buildXmlRecRunAux gas tg (depth + 1) st).2 = st
                        rw [ih tg (depth + 1) st])]
                  simp only [ih]
                · rw [if_neg h2, if_neg h2]

theorem generate_message_run_spec (st : Model) (root_tag : String) (max_depth : Nat) :
    generate_message_run st root_tag max_depth =
      (generate_message st root_tag max_depth, st) := by
  rw [generate_message_run, generate_message]
  by_cases h : (alookup st root_tag).isNone
  · rw [if_pos h, if_pos h]
  · rw [if_neg h, if_neg h]
    rw [buildXmlRecRunAux_spec]
    rfl

theorem genSnippetChildrenRunAux_state
    (node : Option String → Model → Option (Except Unit String) × Model)
    (st : Model) (hnode : ∀ tg, (node tg st).2 = st) :
    ∀ ch, genSnippetChildrenRunAux node ch st =
      (genSnippetChildrenAux (fun tg => (node tg st).1) ch, st) := by
  intro ch
  induction ch with
  | nil => rfl
  | cons c rest ih =>
      rw [genSnippetChildrenRunAux, genSnippetChildrenAux]
      cases hv : pyInt? (c.minOccurs.getD "0") with
      | none => rfl
      | some k =>
          simp only [hnode c.name, ih]
          by_cases hk : 1 ≤ k
          · simp only [if_pos hk]
            cases (node c.name st).1 with
            | none => rfl
            | some rv =>
                cases rv with
                | error e => rfl
                | ok cs =>
                    cases genSnippetChildrenAux (fun tg => (node tg st).1) rest with
                    | none => rfl
                    | some rr => cases rr <;> rfl
          · simp only [if_neg hk]

theorem genSnippetRun_spec :
    ∀ (fuel : Nat) (tag : Option String) (ind : Nat) (st : Model),
      genSnippetRun fuel tag ind st = (genSnippet st fuel tag ind, st) := by
  intro fuel
  induction fuel with
  | zero => intro tag ind st; rfl
  | succ fuel ih =>
      intro tag ind st
      cases tag with
      | none => rfl
      | some tag_name =>
          rw [genSnippetRun, genSnippet]
          cases hl : alookup st tag_name with
          | none => rfl
          | some details =>
              simp only
              rw [genSnippetChildrenRunAux_state
                  (fun t s => genSnippetRun fuel t (ind + 1) s) st
                  (fun tg => by
                    show (genSnippetRun fuel tg (ind + 1) st).2 = st
                    rw [ih tg (ind + 1) st])]
              simp only [ih]
              cases genSnippetChildrenAux
                  (fun tg => genSnippet st fuel tg (ind + 1)) details.children with
              | none => rfl
              | some rv =>
                  cases rv with
                  | error e => rfl
                  | ok inner => rfl

theorem generate_xml_message_run_spec (st : Model) (fuel : Nat) (root_tag ns : String) :
    generate_xml_message_run st fuel root_tag ns =
      (generate_xml_message st fuel root_tag ns, st) := by
  rw [generate_xml_message_run, generate_xml_message]
  cases hl : alookup st root_tag with
  | none => rfl
  | some details =>
      simp only
      by_cases hloc : details.location_type ≠ "Top-Level Element"
      · rw [if_pos hloc, if_pos hloc]
      · rw [if_neg hloc, if_neg hloc]
        rw [genSnippetRun_spec]
        cases genSnippet st fuel (some root_tag) 1 with
        | none => rfl
        | some rv =>
            cases rv with
            | error e => rfl
            | ok snippet => rfl

/-- C9: the three read operations, executed against the index as explicit
state, return the index exactly as they received it (and compute the same
results as their plain forms): no operation after construction mutates
the index. -/
theorem c9_index_immutable (m : Model) (name root_tag ns : String)
    (max_depth fuel : Nat) :
    lookup_tag_run m name = (lookup_tag m name, m) ∧
    generate_message_run m root_tag max_depth =
      (generate_message m root_tag max_depth, m) ∧
    generate_xml_message_run m fuel root_tag ns =
      (generate_xml_message m fuel root_tag ns, m) :=
  ⟨lookup_tag_run_spec m name, generate_message_run_spec m root_tag max_depth,
    generate_xml_message_run_spec m fuel root_tag ns⟩

end FpML
